import Mathlib

/-!
Verification development for the RISC-V guest-to-IR translator
(`target/riscv/translate.c`).

The translator is embedded shallowly:

* The branchless arithmetic edge-case generators (`gen_div`, `gen_divu`,
  `gen_rem`, `gen_remu`, `gen_mulhsu`) emit straight-line TCG code whose
  value semantics is a pure function of the two source register values.
  They are embedded as functions on `Nat` values below `2 ^ w`, where `w`
  is `TARGET_LONG_BITS` (32 or 64 depending on the build); each TCG
  opcode in the source sequence is mirrored by one `let` binding.
  Signed TCG opcodes act on the two's-complement view `toSigned`.
* The per-block translation state `DisasContext` is embedded as `TrCtx`,
  and IR emission is made observable as a trace of `Event`s appended in
  program order.  Guest addresses are modelled as unbounded naturals.
-/

/-- Two's-complement signed view of a `w`-bit register value. -/
def toSigned (w x : Nat) : Int :=
  if x < 2 ^ (w - 1) then (x : Int) else (x : Int) - 2 ^ w

/-- Wrap an integer back into an unsigned `w`-bit register value. -/
def toUnsigned (w : Nat) (v : Int) : Nat :=
  (v % ((2 : Int) ^ w)).toNat

/-- Value semantics of `tcg_gen_setcondi_tl(TCG_COND_EQ, ret, x, y)`. -/
def setcond_eq (x y : Nat) : Nat :=
  if x = y then 1 else 0

/-- Value semantics of `tcg_gen_movcond_tl(TCG_COND_EQ, ret, c, z, t, f)`:
`ret = (c == z) ? t : f`. -/
def movcond_eq (c z t f : Nat) : Nat :=
  if c = z then t else f

/-- Value semantics of the TCG sequence emitted by `gen_div`
(signed division with the RISC-V overflow and divide-by-zero fixups,
computed branchlessly by operand substitution).  Each `let` mirrors one
TCG opcode of the source, in order. -/
def gen_div (w source1 source2 : Nat) : Nat :=
  let resultopt1 := 2 ^ w - 1
  let cond2 := setcond_eq source2 (2 ^ w - 1)
  let cond1 := setcond_eq source1 (2 ^ (w - 1))
  let cond1 := cond1 &&& cond2
  let cond2 := setcond_eq source2 0
  let source1 := movcond_eq cond2 0 source1 resultopt1
  let cond1 := cond1 ||| cond2
  let resultopt1 := 1
  let source2 := movcond_eq cond1 0 source2 resultopt1
  toUnsigned w (Int.tdiv (toSigned w source1) (toSigned w source2))

/-- Value semantics of the TCG sequence emitted by `gen_divu`
(unsigned division with the divide-by-zero fixup). -/
def gen_divu (w source1 source2 : Nat) : Nat :=
  let cond1 := setcond_eq source2 0
  let resultopt1 := 2 ^ w - 1
  let source1 := movcond_eq cond1 0 source1 resultopt1
  let resultopt1 := 1
  let source2 := movcond_eq cond1 0 source2 resultopt1
  source1 / source2

/-- Value semantics of the TCG sequence emitted by `gen_rem`
(signed remainder on sanitized operands, then selection on the
divide-by-zero condition). -/
def gen_rem (w source1 source2 : Nat) : Nat :=
  let resultopt1 := 1
  let cond2 := setcond_eq source2 (2 ^ w - 1)
  let cond1 := setcond_eq source1 (2 ^ (w - 1))
  let cond2 := cond1 &&& cond2
  let cond1 := setcond_eq source2 0
  let cond2 := cond2 ||| cond1
  let source2 := movcond_eq cond2 0 source2 resultopt1
  let resultopt1 := toUnsigned w (Int.tmod (toSigned w source1) (toSigned w source2))
  movcond_eq cond1 0 resultopt1 source1

/-- Value semantics of the TCG sequence emitted by `gen_remu`
(unsigned remainder on sanitized operands, then selection on the
divide-by-zero condition). -/
def gen_remu (w source1 source2 : Nat) : Nat :=
  let resultopt1 := 1
  let cond1 := setcond_eq source2 0
  let source2 := movcond_eq cond1 0 source2 resultopt1
  let resultopt1 := source1 % source2
  movcond_eq cond1 0 resultopt1 source1

/-- Value semantics of `tcg_gen_sari_tl(ret, x, n)`: arithmetic shift
right, i.e. floor division of the signed view by `2 ^ n`, wrapped back
to `w` bits. -/
def sari (w x n : Nat) : Nat :=
  toUnsigned w (toSigned w x / (2 : Int) ^ n)

/-- Value semantics of the TCG sequence emitted by `gen_mulhsu`:
full unsigned double-width product (`tcg_gen_mulu2_tl`), then the upper
half is corrected by subtracting the unsigned operand masked by the
sign mask of the signed operand. -/
def gen_mulhsu (w arg1 arg2 : Nat) : Nat :=
  let rh := arg1 * arg2 / 2 ^ w
  let rl := sari w arg1 (w - 1)
  let rl := rl &&& arg2
  (rh + (2 ^ w - rl % 2 ^ w)) % 2 ^ w

/-! ### Translation context, IR trace and the block driver -/

/-- Constant `TARGET_PAGE_SIZE` of the RISC-V target (`TARGET_PAGE_BITS = 12`). -/
def TARGET_PAGE_SIZE : Nat := 4096

/-- Constant `TB_FLAGS_MMU_MASK` from the CPU header (low bits of `tb->flags`
selecting the MMU index); the value itself is irrelevant to the
properties proved here. -/
def TB_FLAGS_MMU_MASK : Nat := 3

/-- Exception code `RISCV_EXCP_INST_ADDR_MIS`: misaligned instruction address. -/
def RISCV_EXCP_INST_ADDR_MIS : Nat := 0

/-- Exception code `RISCV_EXCP_ILLEGAL_INST`: illegal instruction. -/
def RISCV_EXCP_ILLEGAL_INST : Nat := 2

/-- Exception code `RISCV_EXCP_BREAKPOINT`: breakpoint. -/
def RISCV_EXCP_BREAKPOINT : Nat := 3

/-- Exception code `RISCV_EXCP_U_ECALL`: user-level environment call. -/
def RISCV_EXCP_U_ECALL : Nat := 8

/-- Trap number `EXCP_DEBUG` of the host debug trap. -/
def EXCP_DEBUG : Nat := 0x10002

/-- Modelled from the spec: the `OPC_RISC_ECALL` major-opcode value of the
SYSTEM encoding group, defined in `instmap.h` which is not part of the
embedded source; only its identity matters to `gen_system`. -/
def OPC_RISC_ECALL : Nat := 0x73

/-- Block-exit state `is_jmp` (`DISAS_NEXT`, `DISAS_TOO_MANY`,
`DISAS_NORETURN`). -/
inductive JmpKind where
  | next
  | tooMany
  | noReturn
deriving DecidableEq

/-- One observable IR emission.  Each constructor mirrors one of the TCG
emission calls appearing in the source. -/
inductive Event where
  /-- `tcg_gen_movi_tl(cpu_pc, v)` -/
  | moviPc (v : Nat)
  /-- `tcg_gen_st_tl(cpu_pc, cpu_env, offsetof(CPURISCVState, badaddr))`
  storing value `v` into the fault-address field -/
  | stBadaddr (v : Nat)
  /-- `gen_helper_raise_exception(cpu_env, code)` -/
  | raiseExcp (code : Nat)
  /-- `tcg_gen_goto_tb(n)` (chaining jump slot) -/
  | gotoTb (n : Nat)
  /-- `tcg_gen_exit_tb(ctx->base.tb, n)` (chained exit) -/
  | exitTbChain (n : Nat)
  /-- `tcg_gen_exit_tb(NULL, 0)` (non-chaining exit) -/
  | exitTbNoChain
  /-- `tcg_gen_lookup_and_goto_ptr()` -/
  | lookupGoto
  /-- `gen_helper_set_rounding_mode(cpu_env, rm)` -/
  | setRm (rm : Int)
  /-- `tcg_gen_movi_tl(cpu_gpr[r], v)` -/
  | moviGpr (r : Nat) (v : Nat)
deriving DecidableEq

/-- Shallow embedding of `DisasContext` (plus the `DisasContextBase`
fields this translator reads and writes), together with the per-block
environment bits consulted by the translators (`riscv_has_ext(env, RVC)`,
`singlestep_enabled`) and the trace of IR emitted so far. -/
structure TrCtx where
  /-- `base.pc_first` = `base.tb->pc`, the block's first address -/
  pc_first : Nat
  /-- `base.pc_next`, the address of the instruction being translated -/
  pc_next : Nat
  /-- `pc_succ_insn`, address of the following instruction -/
  pc_succ_insn : Nat
  /-- `opcode`, the fetched instruction word -/
  opcode : Nat
  /-- `flags` = `tb->flags` -/
  flags : Nat
  /-- `mem_idx` -/
  mem_idx : Nat
  /-- `frm`: last installed rounding mode, `-1` for none -/
  frm : Int
  /-- `riscv_has_ext(env, RVC)`: compressed-instruction extension -/
  rvc : Bool
  /-- `base.singlestep_enabled` -/
  singlestep : Bool
  /-- `base.is_jmp` -/
  is_jmp : JmpKind
  /-- IR emitted so far, in program order -/
  trace : List Event
deriving DecidableEq

/-- Append one emitted IR operation to the trace. -/
def emit (ctx : TrCtx) (e : Event) : TrCtx :=
  { ctx with trace := ctx.trace ++ [e] }

/-- Embedding of `generate_exception`: flush the current PC, raise `excp`, and mark
the block no-return. -/
def generate_exception (ctx : TrCtx) (excp : Nat) : TrCtx :=
  let ctx := emit ctx (.moviPc ctx.pc_next)
  let ctx := emit ctx (.raiseExcp excp)
  { ctx with is_jmp := .noReturn }

/-- Embedding of `generate_exception_mbadaddr`: flush the current PC, store it into
`badaddr`, raise `excp`, and mark the block no-return. -/
def generate_exception_mbadaddr (ctx : TrCtx) (excp : Nat) : TrCtx :=
  let ctx := emit ctx (.moviPc ctx.pc_next)
  let ctx := emit ctx (.stBadaddr ctx.pc_next)
  let ctx := emit ctx (.raiseExcp excp)
  { ctx with is_jmp := .noReturn }

/-- Embedding of `gen_exception_debug`: raise `EXCP_DEBUG` (no PC flush, no `is_jmp`
change of its own). -/
def gen_exception_debug (ctx : TrCtx) : TrCtx :=
  emit ctx (.raiseExcp EXCP_DEBUG)

/-- Embedding of `gen_exception_illegal`. -/
def gen_exception_illegal (ctx : TrCtx) : TrCtx :=
  generate_exception ctx RISCV_EXCP_ILLEGAL_INST

/-- Embedding of `gen_exception_inst_addr_mis`. -/
def gen_exception_inst_addr_mis (ctx : TrCtx) : TrCtx :=
  generate_exception_mbadaddr ctx RISCV_EXCP_INST_ADDR_MIS

/-- Embedding of `use_goto_tb` in the system-emulation configuration: chain only when
not single-stepping and `dest` lies in the same page as the block start
(`tb->pc & TARGET_PAGE_MASK == dest & TARGET_PAGE_MASK`). -/
def use_goto_tb (ctx : TrCtx) (dest : Nat) : Bool :=
  if ctx.singlestep then false
  else ctx.pc_first / TARGET_PAGE_SIZE = dest / TARGET_PAGE_SIZE

/-- Embedding of `gen_goto_tb`. -/
def gen_goto_tb (ctx : TrCtx) (n : Nat) (dest : Nat) : TrCtx :=
  if use_goto_tb ctx dest then
    let ctx := emit ctx (.gotoTb n)
    let ctx := emit ctx (.moviPc dest)
    emit ctx (.exitTbChain n)
  else
    let ctx := emit ctx (.moviPc dest)
    if ctx.singlestep then gen_exception_debug ctx
    else emit ctx .lookupGoto

/-- Embedding of `gen_get_gpr`: reads of register 0 yield the constant 0. -/
def gen_get_gpr (gpr : Nat → Nat) (reg_num : Nat) : Nat :=
  if reg_num = 0 then 0 else gpr reg_num

/-- Embedding of `gen_set_gpr`: writes to register 0 are dropped. -/
def gen_set_gpr (gpr : Nat → Nat) (reg_num_dst : Nat) (t : Nat) : Nat → Nat :=
  if reg_num_dst ≠ 0 then (fun r => if r = reg_num_dst then t else gpr r) else gpr

/-- A sequence of register writes performed through `gen_set_gpr`. -/
def applyWrites (gpr : Nat → Nat) : List (Nat × Nat) → (Nat → Nat)
  | [] => gpr
  | (r, v) :: ws => applyWrites (gen_set_gpr gpr r v) ws

/-- Embedding of `gen_jal`: check target alignment (when RVC is absent), write the
link register, and jump. -/
def gen_jal (ctx : TrCtx) (rd : Nat) (imm : Nat) : TrCtx :=
  let next_pc := ctx.pc_next + imm
  if ¬ ctx.rvc ∧ next_pc % 4 ≠ 0 then
    gen_exception_inst_addr_mis ctx
  else
    let ctx := if rd ≠ 0 then emit ctx (.moviGpr rd ctx.pc_succ_insn) else ctx
    let ctx := gen_goto_tb ctx 0 (ctx.pc_next + imm)
    { ctx with is_jmp := .noReturn }

/-- Embedding of `gen_set_rm`: install the rounding mode only on a cache miss. -/
def gen_set_rm (ctx : TrCtx) (rm : Int) : TrCtx :=
  if ctx.frm = rm then ctx
  else
    let ctx := { ctx with frm := rm }
    emit ctx (.setRm rm)

/-- Embedding of `gen_system`: flush the PC, then dispatch ECALL/EBREAK/illegal on
the `csr` field of the SYSTEM opcode. -/
def gen_system (ctx : TrCtx) (opc : Nat) (rd rs1 csr : Nat) : TrCtx :=
  let ctx := emit ctx (.moviPc ctx.pc_next)
  if opc = OPC_RISC_ECALL then
    if csr = 0 then
      let ctx := generate_exception ctx RISCV_EXCP_U_ECALL
      let ctx := emit ctx .exitTbNoChain
      { ctx with is_jmp := .noReturn }
    else if csr = 1 then
      let ctx := generate_exception ctx RISCV_EXCP_BREAKPOINT
      let ctx := emit ctx .exitTbNoChain
      { ctx with is_jmp := .noReturn }
    else gen_exception_illegal ctx
  else ctx

/-- Embedding of `decode_opc`: distinguish compressed from standard encodings on the
low 2 opcode bits, set `pc_succ_insn` accordingly, and run the matching
decode table.  The generated decoders `decode_insn16` / `decode_insn32`
(and the translators they dispatch to) are not part of the embedded
source, so they are taken as parameters returning the updated context
and the match-success flag. -/
def decode_opc (dec16 dec32 : TrCtx → TrCtx × Bool) (ctx : TrCtx) : TrCtx :=
  if ctx.opcode % 4 ≠ 3 then
    if ¬ ctx.rvc then gen_exception_illegal ctx
    else
      let ctx1 := { ctx with pc_succ_insn := ctx.pc_next + 2 }
      let r := dec16 ctx1
      if r.2 then r.1 else gen_exception_illegal r.1
  else
    let ctx1 := { ctx with pc_succ_insn := ctx.pc_next + 4 }
    let r := dec32 ctx1
    if r.2 then r.1 else gen_exception_illegal r.1

/-- Modelled from the spec: the per-block context created by the external
translator loop before handing it to `riscv_tr_init_disas_context`
(first address seeded into the current PC, exit reason "continue",
no IR emitted yet). -/
def translatorLoopInit (pc_first flags : Nat) (rvc singlestep : Bool) : TrCtx :=
  { pc_first := pc_first, pc_next := pc_first, pc_succ_insn := 0, opcode := 0,
    flags := flags, mem_idx := 0, frm := 0, rvc := rvc,
    singlestep := singlestep, is_jmp := .next, trace := [] }

/-- Embedding of `riscv_tr_init_disas_context`: seed `pc_succ_insn` with the block's
first address, derive `mem_idx` from the flags, and reset the
rounding-mode cache to the unknown sentinel. -/
def riscv_tr_init_disas_context (ctx : TrCtx) : TrCtx :=
  { ctx with pc_succ_insn := ctx.pc_first,
             mem_idx := ctx.flags &&& TB_FLAGS_MMU_MASK,
             frm := -1 }

/-- Embedding of `riscv_tr_breakpoint_check`: flush the PC, mark no-return, raise the
debug trap, and extend the nominal instruction boundary by 4. -/
def riscv_tr_breakpoint_check (ctx : TrCtx) : TrCtx × Bool :=
  let ctx := emit ctx (.moviPc ctx.pc_next)
  let ctx := { ctx with is_jmp := .noReturn }
  let ctx := gen_exception_debug ctx
  ({ ctx with pc_next := ctx.pc_next + 4 }, true)

/-- Embedding of `riscv_tr_translate_insn`: fetch and decode one opcode, advance
`pc_next` to `pc_succ_insn`, and force a `tooMany` exit when the next
address leaves the page of the block's first instruction.  `fetch`
stands for `cpu_ldl_code`. -/
def riscv_tr_translate_insn (fetch : Nat → Nat) (dec16 dec32 : TrCtx → TrCtx × Bool)
    (ctx : TrCtx) : TrCtx :=
  let ctx := { ctx with opcode := fetch ctx.pc_next }
  let ctx := decode_opc dec16 dec32 ctx
  let ctx := { ctx with pc_next := ctx.pc_succ_insn }
  if ctx.is_jmp = .next then
    let page_start := ctx.pc_first / TARGET_PAGE_SIZE * TARGET_PAGE_SIZE
    if TARGET_PAGE_SIZE ≤ ctx.pc_next - page_start then
      { ctx with is_jmp := .tooMany }
    else ctx
  else ctx

/-- Embedding of `riscv_tr_tb_stop`: a `tooMany` exit chains to the fall-through
address, a no-return exit emits nothing further; any other exit state is
unreachable (`g_assert_not_reached`), modelled as `none`. -/
def riscv_tr_tb_stop (ctx : TrCtx) : Option TrCtx :=
  match ctx.is_jmp with
  | .tooMany => some (gen_goto_tb ctx 0 ctx.pc_next)
  | .noReturn => some ctx
  | .next => none

/-- Modelled from the spec: the external translator loop drives
`riscv_tr_translate_insn` while the exit reason is "continue", recording
the start address of every instruction it translates. -/
def translatorLoop (fetch : Nat → Nat) (dec16 dec32 : TrCtx → TrCtx × Bool) :
    Nat → TrCtx → TrCtx × List Nat
  | 0, ctx => (ctx, [])
  | fuel + 1, ctx =>
    if ctx.is_jmp = .next then
      let started := ctx.pc_next
      let ctx1 := riscv_tr_translate_insn fetch dec16 dec32 ctx
      let r := translatorLoop fetch dec16 dec32 fuel ctx1
      (r.1, started :: r.2)
    else (ctx, [])

/-- Number of rounding-mode installs appearing in an IR trace. -/
def countRmInstalls (tr : List Event) : Nat :=
  (tr.filter fun e => match e with | .setRm _ => true | _ => false).length

/-- The generated decode tables and the semantic translators never touch
the program-counter bookkeeping of the context: they may emit IR, change
`is_jmp`, `frm`, and anything else, but leave `pc_first`, `pc_next` and
`pc_succ_insn` as decode set them. -/
def PreservesPc (dec : TrCtx → TrCtx × Bool) : Prop :=
  ∀ c, (dec c).1.pc_first = c.pc_first ∧ (dec c).1.pc_next = c.pc_next ∧
       (dec c).1.pc_succ_insn = c.pc_succ_insn

/-- A concrete block-entry context (block starting at address 4096, RVC
absent, no single-stepping), used by concrete witnesses below. -/
def c1Ctx : TrCtx :=
  { pc_first := 4096, pc_next := 4096, pc_succ_insn := 4100, opcode := 0,
    flags := 0, mem_idx := 0, frm := -1, rvc := false, singlestep := false,
    is_jmp := .next, trace := [] }

/-- Identity decode table used by concrete witnesses. -/
def wdec_id : TrCtx → TrCtx × Bool := fun c => (c, true)

/-- Decode table that agrees with `wdec_id` exactly on contexts whose
`pc_succ_insn` is the compressed fall-through address. -/
def wdec_alt2 : TrCtx → TrCtx × Bool := fun c =>
  if c.pc_succ_insn = c.pc_next + 2 then (c, true) else ({ c with frm := 7 }, false)

/-- Decode table that agrees with `wdec_id` exactly on contexts whose
`pc_succ_insn` is the standard fall-through address. -/
def wdec_alt4 : TrCtx → TrCtx × Bool := fun c =>
  if c.pc_succ_insn = c.pc_next + 4 then (c, true) else ({ c with frm := 7 }, false)

/-- A concrete context holding a standard (low bits 0b11) opcode. -/
def c8CtxStd : TrCtx := { c1Ctx with opcode := 0x73, rvc := true }

/-- A concrete context holding a compressed opcode, RVC present. -/
def c8CtxCmp : TrCtx := { c1Ctx with opcode := 2, rvc := true }

/-! ### Arithmetic helper lemmas -/

lemma two_pow_split (w : Nat) (hw : 0 < w) : 2 ^ w = 2 * 2 ^ (w - 1) := by
  cases w with
  | zero => omega
  | succ n => rw [pow_succ, Nat.succ_sub_one, Nat.mul_comm]

lemma two_pow_pred_pos (w : Nat) : 0 < 2 ^ (w - 1) :=
  Nat.pos_pow_of_pos _ (by omega)

lemma cast_two_pow (w : Nat) : ((2 ^ w : Nat) : Int) = (2 : Int) ^ w := by
  push_cast
  ring

lemma toUnsigned_coe (w x : Nat) (h : x < 2 ^ w) : toUnsigned w x = x := by
  unfold toUnsigned
  rw [Int.emod_eq_of_lt (by positivity) (by exact_mod_cast h)]
  simp

lemma toUnsigned_toSigned (w x : Nat) (h : x < 2 ^ w) :
    toUnsigned w (toSigned w x) = x := by
  unfold toSigned toUnsigned
  split
  · rw [Int.emod_eq_of_lt (by positivity) (by exact_mod_cast h)]
    simp
  · have hrw : (x : Int) - 2 ^ w = x + 2 ^ w * (-1) := by ring
    rw [hrw, Int.add_mul_emod_self_left,
        Int.emod_eq_of_lt (by positivity) (by exact_mod_cast h)]
    simp

lemma toSigned_eq_zero_iff (w x : Nat) (hw : 0 < w) (h : x < 2 ^ w) :
    toSigned w x = 0 ↔ x = 0 := by
  have hs := two_pow_split w hw
  have hq := two_pow_pred_pos w
  unfold toSigned
  split
  · omega
  · rw [← cast_two_pow w]
    omega

lemma toSigned_eq_neg_one_iff (w x : Nat) (hw : 0 < w) (h : x < 2 ^ w) :
    toSigned w x = -1 ↔ x = 2 ^ w - 1 := by
  have hs := two_pow_split w hw
  have hq := two_pow_pred_pos w
  unfold toSigned
  split
  · omega
  · rw [← cast_two_pow w]
    omega

lemma toSigned_eq_min_iff (w x : Nat) (hw : 0 < w) (h : x < 2 ^ w) :
    toSigned w x = -(2 ^ (w - 1) : Int) ↔ x = 2 ^ (w - 1) := by
  have hs := two_pow_split w hw
  have hq := two_pow_pred_pos w
  unfold toSigned
  split
  · rw [← cast_two_pow (w - 1)]
    omega
  · rw [← cast_two_pow w, ← cast_two_pow (w - 1)]
    omega

lemma toSigned_one (w : Nat) (hw : 1 < w) : toSigned w 1 = 1 := by
  have : (1 : Nat) < 2 ^ (w - 1) := by
    calc (1 : Nat) < 2 ^ 1 := by norm_num
    _ ≤ 2 ^ (w - 1) := Nat.pow_le_pow_right (by norm_num) (by omega)
  simp [toSigned, this]

lemma toSigned_all_ones (w : Nat) (hw : 0 < w) : toSigned w (2 ^ w - 1) = -1 := by
  exact (toSigned_eq_neg_one_iff w _ hw (by have := Nat.one_lt_two_pow (n := w) (by omega); omega)).mpr rfl

/-! ### Claim theorems -/

/-- C1 (amended): for a JAL translated with the RVC extension absent and
a computed target `pc + imm` with either low bit set, the translator
raises the misaligned-instruction-address exception recording the
*current instruction's* address (`ctx->base.pc_next`) — not the target —
in `badaddr`, commits no register write (no `moviGpr` is emitted), and
terminates the block in the no-return exit state with no further IR. -/
theorem c1_gen_jal_misaligned (ctx : TrCtx) (rd imm : Nat)
    (hrvc : ctx.rvc = false) (hmis : (ctx.pc_next + imm) % 4 ≠ 0) :
    gen_jal ctx rd imm =
      { ctx with
          trace := ctx.trace ++ [.moviPc ctx.pc_next, .stBadaddr ctx.pc_next,
                                 .raiseExcp RISCV_EXCP_INST_ADDR_MIS],
          is_jmp := .noReturn } ∧
    ∀ r v, Event.moviGpr r v ∉
      [Event.moviPc ctx.pc_next, Event.stBadaddr ctx.pc_next,
       Event.raiseExcp RISCV_EXCP_INST_ADDR_MIS] := by
  constructor
  · simp [gen_jal, hrvc, hmis, gen_exception_inst_addr_mis,
          generate_exception_mbadaddr, emit]
  · intro r v
    simp

/-- C1 counterexample: at a block whose JAL sits at address 4096 with
immediate 2, the misaligned target is 4098, yet the emitted IR records
4096 (the instruction's own address) in `badaddr`, never 4098 — so the
claim that the offending (target) address is recorded is false. -/
theorem c1_counterexample :
    (4096 + 2) % 4 ≠ 0 ∧
    Event.stBadaddr 4098 ∉ (gen_jal c1Ctx 1 2).trace ∧
    Event.stBadaddr 4096 ∈ (gen_jal c1Ctx 1 2).trace := by decide

/-- Witness for C1 at the concrete context `c1Ctx`. -/
theorem c1_witness :
    c1Ctx.rvc = false ∧ (c1Ctx.pc_next + 2) % 4 ≠ 0 ∧
    (gen_jal c1Ctx 0 2 =
      { c1Ctx with
          trace := c1Ctx.trace ++ [.moviPc c1Ctx.pc_next, .stBadaddr c1Ctx.pc_next,
                                   .raiseExcp RISCV_EXCP_INST_ADDR_MIS],
          is_jmp := .noReturn } ∧
     ∀ r v, Event.moviGpr r v ∉
       [Event.moviPc c1Ctx.pc_next, Event.stBadaddr c1Ctx.pc_next,
        Event.raiseExcp RISCV_EXCP_INST_ADDR_MIS]) :=
  ⟨rfl, by decide, c1_gen_jal_misaligned c1Ctx 0 2 rfl (by decide)⟩

/-- C5: reading integer register 0 through `gen_get_gpr` yields 0 after
any prior sequence of writes; writing register 0 through `gen_set_gpr`
leaves the whole register file unchanged; reads and writes of any other
index behave as ordinary lookup and pointwise update. -/
theorem c5_gpr_zero_hardwired (gpr : Nat → Nat) (ws : List (Nat × Nat))
    (r v : Nat) (hr : r ≠ 0) :
    gen_get_gpr (applyWrites gpr ws) 0 = 0 ∧
    gen_set_gpr gpr 0 v = gpr ∧
    gen_get_gpr gpr r = gpr r ∧
    gen_set_gpr gpr r v r = v ∧
    (∀ s, s ≠ r → gen_set_gpr gpr r v s = gpr s) := by
  refine ⟨?_, ?_, ?_, ?_, ?_⟩
  · simp [gen_get_gpr]
  · simp [gen_set_gpr]
  · simp [gen_get_gpr, hr]
  · simp [gen_set_gpr, hr]
  · intro s hs
    simp [gen_set_gpr, hr, hs]

/-- Witness for C5: a concrete register file, write sequence and index. -/
theorem c5_witness :
    (3 : Nat) ≠ 0 ∧
    (gen_get_gpr (applyWrites (fun _ => 5) [(0, 9), (3, 7)]) 0 = 0 ∧
     gen_set_gpr (fun _ => 5) 0 7 = (fun _ => 5) ∧
     gen_get_gpr (fun _ => 5) 3 = (fun _ => 5) 3 ∧
     gen_set_gpr (fun _ => 5) 3 7 3 = 7 ∧
     (∀ s, s ≠ 3 → gen_set_gpr (fun _ => 5) 3 7 s = (fun _ => 5) s)) :=
  ⟨by decide, c5_gpr_zero_hardwired (fun _ => 5) [(0, 9), (3, 7)] 3 7 (by decide)⟩

/-- C6: the rounding-mode cache is reset to the `-1` sentinel at block
entry; a mode request equal to the cached value emits no install and a
differing request emits exactly one install and updates the cache; hence
two instructions requesting the same mode emit one install total and a
block-initial request (any actual mode, `0 ≤ rm`) always installs. -/
theorem c6_rounding_mode_cache (pc_first flags : Nat) (rvc ss : Bool)
    (ctx : TrCtx) (rm : Int) (hrm : 0 ≤ rm) :
    (riscv_tr_init_disas_context (translatorLoopInit pc_first flags rvc ss)).frm = -1 ∧
    (ctx.frm = rm → gen_set_rm ctx rm = ctx) ∧
    (ctx.frm ≠ rm →
      gen_set_rm ctx rm =
        { ctx with frm := rm, trace := ctx.trace ++ [.setRm rm] } ∧
      countRmInstalls (gen_set_rm ctx rm).trace = countRmInstalls ctx.trace + 1) ∧
    countRmInstalls
      (gen_set_rm (riscv_tr_init_disas_context
        (translatorLoopInit pc_first flags rvc ss)) rm).trace = 1 ∧
    countRmInstalls
      (gen_set_rm (gen_set_rm (riscv_tr_init_disas_context
        (translatorLoopInit pc_first flags rvc ss)) rm) rm).trace = 1 := by
  have hne : (-1 : Int) ≠ rm := by omega
  refine ⟨rfl, ?_, ?_, ?_, ?_⟩
  · intro h
    simp [gen_set_rm, h]
  · intro h
    constructor
    · simp [gen_set_rm, h, emit]
    · simp [gen_set_rm, h, emit, countRmInstalls, List.filter_append]
  · simp [riscv_tr_init_disas_context, translatorLoopInit, gen_set_rm, hne,
          emit, countRmInstalls]
  · simp [riscv_tr_init_disas_context, translatorLoopInit, gen_set_rm, hne,
          emit, countRmInstalls]

/-- Witness for C6 at a concrete context and rounding mode. -/
theorem c6_witness :
    (0 : Int) ≤ 3 ∧
    ((riscv_tr_init_disas_context (translatorLoopInit 4096 0 true false)).frm = -1 ∧
     (c1Ctx.frm = 3 → gen_set_rm c1Ctx 3 = c1Ctx) ∧
     (c1Ctx.frm ≠ 3 →
       gen_set_rm c1Ctx 3 =
         { c1Ctx with frm := 3, trace := c1Ctx.trace ++ [.setRm 3] } ∧
       countRmInstalls (gen_set_rm c1Ctx 3).trace = countRmInstalls c1Ctx.trace + 1) ∧
     countRmInstalls
       (gen_set_rm (riscv_tr_init_disas_context
         (translatorLoopInit 4096 0 true false)) 3).trace = 1 ∧
     countRmInstalls
       (gen_set_rm (gen_set_rm (riscv_tr_init_disas_context
         (translatorLoopInit 4096 0 true false)) 3) 3).trace = 1) :=
  ⟨by decide, c6_rounding_mode_cache 4096 0 true false c1Ctx 3 (by decide)⟩

/-- C9: translating ECALL (SYSTEM opcode, csr field 0) first flushes the
guest PC, raises exactly `RISCV_EXCP_U_ECALL`, exits the block with a
non-chaining `exit_tb(NULL, 0)` and leaves the no-return exit state;
EBREAK (csr field 1) likewise raises `RISCV_EXCP_BREAKPOINT` without
chaining.  No chaining IR (`goto_tb` / chained `exit_tb`) is emitted. -/
theorem c9_ecall_ebreak (ctx : TrCtx) (rd rs1 : Nat) :
    gen_system ctx OPC_RISC_ECALL rd rs1 0 =
      { ctx with
          trace := ctx.trace ++ [.moviPc ctx.pc_next, .moviPc ctx.pc_next,
                                 .raiseExcp RISCV_EXCP_U_ECALL, .exitTbNoChain],
          is_jmp := .noReturn } ∧
    gen_system ctx OPC_RISC_ECALL rd rs1 1 =
      { ctx with
          trace := ctx.trace ++ [.moviPc ctx.pc_next, .moviPc ctx.pc_next,
                                 .raiseExcp RISCV_EXCP_BREAKPOINT, .exitTbNoChain],
          is_jmp := .noReturn } ∧
    (∀ n, Event.gotoTb n ∉
       [Event.moviPc ctx.pc_next, Event.moviPc ctx.pc_next,
        Event.raiseExcp RISCV_EXCP_U_ECALL, Event.exitTbNoChain]) ∧
    (∀ n, Event.exitTbChain n ∉
       [Event.moviPc ctx.pc_next, Event.moviPc ctx.pc_next,
        Event.raiseExcp RISCV_EXCP_U_ECALL, Event.exitTbNoChain]) := by
  refine ⟨?_, ?_, ?_, ?_⟩
  · simp [gen_system, generate_exception, emit, OPC_RISC_ECALL]
  · simp [gen_system, generate_exception, emit, OPC_RISC_ECALL]
  · intro n
    simp
  · intro n
    simp

/-- C10: every exception emission helper of this translator — plain
exceptions, fault-address exceptions, and the debugger breakpoint check —
first writes the address of the instruction being translated into the
guest PC, then (for `generate_exception_mbadaddr`, after also recording
it in `badaddr`) emits the raise-exception call, and leaves the block in
the no-return exit state. -/
theorem c10_exceptions_flush_pc (ctx : TrCtx) (excp : Nat) :
    generate_exception ctx excp =
      { ctx with trace := ctx.trace ++ [.moviPc ctx.pc_next, .raiseExcp excp],
                 is_jmp := .noReturn } ∧
    generate_exception_mbadaddr ctx excp =
      { ctx with trace := ctx.trace ++ [.moviPc ctx.pc_next, .stBadaddr ctx.pc_next,
                                        .raiseExcp excp],
                 is_jmp := .noReturn } ∧
    riscv_tr_breakpoint_check ctx =
      ({ ctx with trace := ctx.trace ++ [.moviPc ctx.pc_next, .raiseExcp EXCP_DEBUG],
                  is_jmp := .noReturn, pc_next := ctx.pc_next + 4 }, true) := by
  refine ⟨?_, ?_, ?_⟩
  · simp [generate_exception, emit]
  · simp [generate_exception_mbadaddr, emit]
  · simp [riscv_tr_breakpoint_check, gen_exception_debug, emit]

lemma gen_exception_illegal_pc (c : TrCtx) :
    (gen_exception_illegal c).pc_first = c.pc_first ∧
    (gen_exception_illegal c).pc_next = c.pc_next ∧
    (gen_exception_illegal c).pc_succ_insn = c.pc_succ_insn := by
  simp [gen_exception_illegal, generate_exception, emit]

/-- C8: `decode_opc` assigns `pc_succ_insn := pc_next + 2` (compressed
encodings, low opcode bits ≠ 0b11) or `pc_next + 4` (standard encodings)
before running the matching decode table, so the semantic translators
only ever observe a context whose `pc_succ_insn` is the fall-through
address: two translator tables that agree on all such contexts produce
identical decodes, and when a table leaves `pc_succ_insn` alone the
decoded context still carries `pc_next + len`. -/
theorem c8_pc_succ_insn (dec16 dec16' dec32 dec32' : TrCtx → TrCtx × Bool)
    (ctx : TrCtx)
    (h16 : ∀ c, c.pc_succ_insn = c.pc_next + 2 → dec16 c = dec16' c)
    (h32 : ∀ c, c.pc_succ_insn = c.pc_next + 4 → dec32 c = dec32' c) :
    decode_opc dec16 dec32 ctx = decode_opc dec16' dec32' ctx ∧
    ((∀ c, (dec32 c).1.pc_succ_insn = c.pc_succ_insn) → ctx.opcode % 4 = 3 →
      (decode_opc dec16 dec32 ctx).pc_succ_insn = ctx.pc_next + 4) ∧
    ((∀ c, (dec16 c).1.pc_succ_insn = c.pc_succ_insn) → ctx.opcode % 4 ≠ 3 →
      ctx.rvc = true →
      (decode_opc dec16 dec32 ctx).pc_succ_insn = ctx.pc_next + 2) := by
  refine ⟨?_, ?_, ?_⟩
  · simp only [decode_opc]
    rw [h16 { ctx with pc_succ_insn := ctx.pc_next + 2 } (by simp),
        h32 { ctx with pc_succ_insn := ctx.pc_next + 4 } (by simp)]
  · intro hp hop
    simp only [decode_opc, hop, ne_eq, not_true_eq_false, ite_false]
    split
    · rw [hp]
    · rw [(gen_exception_illegal_pc _).2.2, hp]
  · intro hp hop hrvc
    simp only [decode_opc, hop, hrvc, ne_eq, not_false_eq_true, ite_true,
               not_true_eq_false, ite_false]
    split
    · rw [hp]
    · rw [(gen_exception_illegal_pc _).2.2, hp]

/-- Witness for C8 at concrete decode tables and contexts. -/
theorem c8_witness :
    decode_opc wdec_id wdec_id c8CtxStd = decode_opc wdec_id wdec_alt4 c8CtxStd ∧
    (decode_opc wdec_id wdec_id c8CtxStd).pc_succ_insn = c8CtxStd.pc_next + 4 ∧
    (decode_opc wdec_id wdec_id c8CtxCmp).pc_succ_insn = c8CtxCmp.pc_next + 2 := by
  have h1 := c8_pc_succ_insn wdec_id wdec_id wdec_id wdec_alt4 c8CtxStd
    (fun c hc => rfl) (fun c hc => by simp [wdec_id, wdec_alt4, hc])
  have h2 := c8_pc_succ_insn wdec_id wdec_alt2 wdec_id wdec_id c8CtxCmp
    (fun c hc => by simp [wdec_id, wdec_alt2, hc]) (fun c hc => rfl)
  exact ⟨h1.1, h1.2.1 (fun c => rfl) (by decide),
         h2.2.2 (fun c => rfl) (by decide) (by decide)⟩

lemma two_pow_split_int (w : Nat) (hw : 0 < w) : (2 : Int) ^ w = 2 * 2 ^ (w - 1) := by
  exact_mod_cast two_pow_split w hw

lemma toSigned_min (w : Nat) (hw : 0 < w) :
    toSigned w (2 ^ (w - 1)) = -(2 ^ (w - 1) : Int) := by
  refine (toSigned_eq_min_iff w _ hw ?_).mpr rfl
  exact Nat.pow_lt_pow_right (by norm_num) (by omega)

lemma toUnsigned_neg_min (w : Nat) (hw : 0 < w) :
    toUnsigned w (-(2 ^ (w - 1) : Int)) = 2 ^ (w - 1) := by
  have hq : (0 : Int) < 2 ^ (w - 1) := by positivity
  unfold toUnsigned
  have hrw : (-(2 ^ (w - 1) : Int)) = 2 ^ (w - 1) + 2 ^ w * (-1) := by
    rw [two_pow_split_int w hw]
    ring
  rw [hrw, Int.add_mul_emod_self_left,
      Int.emod_eq_of_lt (by positivity) (by rw [two_pow_split_int w hw]; omega),
      ← cast_two_pow (w - 1), Int.toNat_natCast]

/-- C2: the signed-divide IR sequence yields the dividend unchanged in
the overflow case (minimum dividend, divisor −1), −1 on division by
zero, and the ordinary truncated signed quotient otherwise; the
unsigned-divide sequence yields all-ones on division by zero and the
ordinary unsigned quotient otherwise. -/
theorem c2_div_edge_cases (w a b : Nat) (hw : 1 < w) (ha : a < 2 ^ w) (hb : b < 2 ^ w) :
    (toSigned w a = -(2 ^ (w - 1) : Int) ∧ toSigned w b = -1 → gen_div w a b = a) ∧
    (toSigned w b = 0 → gen_div w a b = toUnsigned w (-1)) ∧
    (toSigned w b ≠ 0 → ¬(toSigned w a = -(2 ^ (w - 1) : Int) ∧ toSigned w b = -1) →
      gen_div w a b = toUnsigned w (Int.tdiv (toSigned w a) (toSigned w b))) ∧
    (b = 0 → gen_divu w a b = 2 ^ w - 1) ∧
    (b ≠ 0 → gen_divu w a b = a / b) := by
  have hw0 : 0 < w := by omega
  have h2 : 1 < 2 ^ w := Nat.one_lt_two_pow (by omega)
  have hne : ¬(2 ^ w - 1 = 0) := by omega
  refine ⟨?_, ?_, ?_, ?_, ?_⟩
  · rintro ⟨hA, hB⟩
    rw [toSigned_eq_min_iff w a hw0 ha] at hA
    rw [toSigned_eq_neg_one_iff w b hw0 hb] at hB
    subst hA
    subst hB
    simp only [gen_div, setcond_eq, movcond_eq]
    simp [hne]
    rw [toSigned_min w hw0, toSigned_one w hw, Int.tdiv_one, toUnsigned_neg_min w hw0]
  · intro hB
    rw [toSigned_eq_zero_iff w b hw0 hb] at hB
    subst hB
    have hne2 : ¬((0 : Nat) = 2 ^ w - 1) := by omega
    simp [gen_div, setcond_eq, movcond_eq, hne2]
    rw [toSigned_all_ones w hw0, toSigned_one w hw, Int.tdiv_one]
  · intro hB hOv
    rw [Ne, toSigned_eq_zero_iff w b hw0 hb] at hB
    rw [toSigned_eq_min_iff w a hw0 ha, toSigned_eq_neg_one_iff w b hw0 hb] at hOv
    by_cases hA : a = 2 ^ (w - 1) <;> by_cases hB2 : b = 2 ^ w - 1
    · exact absurd ⟨hA, hB2⟩ hOv
    · simp [gen_div, setcond_eq, movcond_eq, hA, hB2, hB, hne]
    · simp [gen_div, setcond_eq, movcond_eq, hA, hB2, hB, hne]
    · simp [gen_div, setcond_eq, movcond_eq, hA, hB2, hB, hne]
  · intro hb0
    subst hb0
    simp [gen_divu, setcond_eq, movcond_eq]
  · intro hb0
    simp [gen_divu, setcond_eq, movcond_eq, hb0]

/-- Witness for C2 at width 8, dividend 128 (the minimum signed value)
and divisor 255 (−1), plus the spelled-out remaining cases. -/
theorem c2_witness :
    (1 < 8) ∧ 128 < 2 ^ 8 ∧ 255 < 2 ^ 8 ∧
    ((toSigned 8 128 = -(2 ^ (8 - 1) : Int) ∧ toSigned 8 255 = -1 →
        gen_div 8 128 255 = 128) ∧
     (toSigned 8 255 = 0 → gen_div 8 128 255 = toUnsigned 8 (-1)) ∧
     (toSigned 8 255 ≠ 0 →
        ¬(toSigned 8 128 = -(2 ^ (8 - 1) : Int) ∧ toSigned 8 255 = -1) →
        gen_div 8 128 255 = toUnsigned 8 (Int.tdiv (toSigned 8 128) (toSigned 8 255))) ∧
     ((255 : Nat) = 0 → gen_divu 8 128 255 = 2 ^ 8 - 1) ∧
     ((255 : Nat) ≠ 0 → gen_divu 8 128 255 = 128 / 255)) :=
  ⟨by decide, by decide, by decide,
   c2_div_edge_cases 8 128 255 (by decide) (by decide) (by decide)⟩

lemma toUnsigned_zero (w : Nat) : toUnsigned w 0 = 0 := by
  simp [toUnsigned]

lemma toUnsigned_neg_one (w : Nat) (hw0 : 0 < w) : toUnsigned w (-1) = 2 ^ w - 1 := by
  have h2 : 1 < 2 ^ w := Nat.one_lt_two_pow (by omega)
  unfold toUnsigned
  have hrw : (-1 : Int) = ((2 ^ w - 1 : Nat) : Int) + 2 ^ w * (-1) := by
    rw [← cast_two_pow w]
    push_cast [Nat.cast_sub (le_of_lt h2)]
    ring
  rw [hrw, Int.add_mul_emod_self_left,
      Int.emod_eq_of_lt (by positivity) (by rw [← cast_two_pow w]; exact_mod_cast Nat.sub_lt (by omega) (by omega)),
      Int.toNat_natCast]

/-- C3: the signed and unsigned remainder IR sequences return the
dividend unchanged on division by zero; the signed overflow case
(minimum dividend, divisor −1) yields 0, produced by the sanitized
computation (divisor forced to 1) itself, while the final selection is
keyed on the divide-by-zero condition; any non-zero divisor yields the
ordinary truncated remainder. -/
theorem c3_rem_edge_cases (w a b : Nat) (hw : 1 < w) (ha : a < 2 ^ w) (hb : b < 2 ^ w) :
    (b = 0 → gen_rem w a b = a ∧ gen_remu w a b = a) ∧
    (toSigned w a = -(2 ^ (w - 1) : Int) ∧ toSigned w b = -1 →
      gen_rem w a b = 0 ∧
      gen_rem w a b = toUnsigned w (Int.tmod (toSigned w a) (toSigned w 1))) ∧
    (b ≠ 0 → gen_rem w a b = toUnsigned w (Int.tmod (toSigned w a) (toSigned w b))) ∧
    (b ≠ 0 → gen_remu w a b = a % b) := by
  have hw0 : 0 < w := by omega
  have h2 : 1 < 2 ^ w := Nat.one_lt_two_pow (by omega)
  have hne : ¬(2 ^ w - 1 = 0) := by omega
  refine ⟨?_, ?_, ?_, ?_⟩
  · intro hb0
    subst hb0
    have hne2 : ¬((0 : Nat) = 2 ^ w - 1) := by omega
    constructor
    · simp [gen_rem, setcond_eq, movcond_eq, hne2]
    · simp [gen_remu, setcond_eq, movcond_eq]
  · rintro ⟨hA, hB⟩
    rw [toSigned_eq_min_iff w a hw0 ha] at hA
    rw [toSigned_eq_neg_one_iff w b hw0 hb] at hB
    subst hA
    subst hB
    have heval : gen_rem w (2 ^ (w - 1)) (2 ^ w - 1) =
        toUnsigned w (Int.tmod (toSigned w (2 ^ (w - 1))) (toSigned w 1)) := by
      simp [gen_rem, setcond_eq, movcond_eq, hne]
    refine ⟨?_, heval⟩
    rw [heval, toSigned_one w hw, Int.tmod_one, toUnsigned_zero]
  · intro hb0
    by_cases hA : a = 2 ^ (w - 1) <;> by_cases hB2 : b = 2 ^ w - 1
    · subst hA
      subst hB2
      simp [gen_rem, setcond_eq, movcond_eq, hne]
      rw [toSigned_one w hw, Int.tmod_one, toSigned_all_ones w hw0]
      rw [show (-1 : Int) = -(1) from rfl, Int.tmod_neg, Int.tmod_one]
    · simp [gen_rem, setcond_eq, movcond_eq, hA, hB2, hb0, hne]
    · simp [gen_rem, setcond_eq, movcond_eq, hA, hB2, hb0, hne]
    · simp [gen_rem, setcond_eq, movcond_eq, hA, hB2, hb0, hne]
  · intro hb0
    simp [gen_remu, setcond_eq, movcond_eq, hb0]

/-- Witness for C3 at width 8: divide-by-zero (dividend 100), the
overflow pair (128, 255), and an ordinary pair. -/
theorem c3_witness :
    (1 < 8) ∧ 128 < 2 ^ 8 ∧ 255 < 2 ^ 8 ∧
    (((255 : Nat) = 0 → gen_rem 8 128 255 = 128 ∧ gen_remu 8 128 255 = 128) ∧
     (toSigned 8 128 = -(2 ^ (8 - 1) : Int) ∧ toSigned 8 255 = -1 →
       gen_rem 8 128 255 = 0 ∧
       gen_rem 8 128 255 = toUnsigned 8 (Int.tmod (toSigned 8 128) (toSigned 8 1))) ∧
     ((255 : Nat) ≠ 0 →
       gen_rem 8 128 255 = toUnsigned 8 (Int.tmod (toSigned 8 128) (toSigned 8 255))) ∧
     ((255 : Nat) ≠ 0 → gen_remu 8 128 255 = 128 % 255)) :=
  ⟨by decide, by decide, by decide,
   c3_rem_edge_cases 8 128 255 (by decide) (by decide) (by decide)⟩

lemma sari_msb (w a : Nat) (hw0 : 0 < w) (ha : a < 2 ^ w) :
    sari w a (w - 1) = if a < 2 ^ (w - 1) then 0 else 2 ^ w - 1 := by
  have hsplit := two_pow_split w hw0
  have hq := two_pow_pred_pos w
  by_cases hs : a < 2 ^ (w - 1)
  · rw [if_pos hs]
    unfold sari toSigned
    rw [if_pos hs,
        Int.ediv_eq_zero_of_lt (by positivity)
          (by rw [← cast_two_pow (w - 1)]; exact_mod_cast hs)]
    exact toUnsigned_zero w
  · rw [if_neg hs]
    unfold sari toSigned
    rw [if_neg hs]
    have hc : ((2 : Int) ^ (w - 1)) ≠ 0 := ne_of_gt (by positivity)
    have e1 : ((a : Int) - 2 ^ w + 1 * 2 ^ (w - 1)) / 2 ^ (w - 1) =
        ((a : Int) - 2 ^ w) / 2 ^ (w - 1) + 1 :=
      Int.add_mul_ediv_right _ _ hc
    have e2 : ((a : Int) - 2 ^ w + 1 * 2 ^ (w - 1)) = (a : Int) - 2 ^ (w - 1) := by
      rw [two_pow_split_int w hw0]
      ring
    have e3 : ((a : Int) - 2 ^ (w - 1)) / 2 ^ (w - 1) = 0 := by
      have haI : ((a : Int)) < ((2 ^ w : Nat) : Int) := by exact_mod_cast ha
      have hsI : ((2 ^ w : Nat) : Int) = 2 * ((2 ^ (w - 1) : Nat) : Int) := by
        exact_mod_cast hsplit
      apply Int.ediv_eq_zero_of_lt
      · rw [← cast_two_pow (w - 1)]
        omega
      · rw [← cast_two_pow (w - 1)]
        omega
    have h1 : ((a : Int) - 2 ^ w) / 2 ^ (w - 1) = -1 := by
      rw [e2, e3] at e1
      omega
    rw [h1]
    exact toUnsigned_neg_one w hw0

/-- C4: the mixed-sign multiply-high sequence — full unsigned
double-width product, upper half corrected by the unsigned operand
masked with the sign mask of the signed operand — equals the upper
`w`-bit half of the exact integer product of the signed view of `a`
and the unsigned value `b`. -/
theorem c4_mulhsu_exact (w a b : Nat) (hw : 1 < w) (ha : a < 2 ^ w) (hb : b < 2 ^ w) :
    (gen_mulhsu w a b : Int) = toSigned w a * (b : Int) / 2 ^ w % 2 ^ w := by
  have hw0 : 0 < w := by omega
  have hrh : a * b / 2 ^ w < 2 ^ w := by
    apply Nat.div_lt_of_lt_mul
    calc a * b < 2 ^ w * 2 ^ w := by
          apply Nat.mul_lt_mul_of_lt_of_le ha (le_of_lt hb)
          omega
    _ = 2 ^ w * 2 ^ w := rfl
  simp only [gen_mulhsu]
  rw [sari_msb w a hw0 ha]
  by_cases hs : a < 2 ^ (w - 1)
  · rw [if_pos hs]
    simp only [Nat.zero_and, Nat.zero_mod, Nat.sub_zero]
    rw [Nat.add_mod_right, Nat.mod_eq_of_lt hrh]
    simp only [toSigned]
    rw [if_pos hs]
    have h2 : ((a : Int) * b) / (2 : Int) ^ w = ((a * b / 2 ^ w : Nat) : Int) := by
      rw [show ((a : Int) * b) = ((a * b : Nat) : Int) by push_cast; ring,
          ← cast_two_pow w]
      exact (Int.ofNat_div _ _).symm
    rw [h2, Int.emod_eq_of_lt (by positivity)
          (by rw [← cast_two_pow w]; exact_mod_cast hrh)]
  · rw [if_neg hs]
    rw [Nat.and_comm, Nat.and_pow_two_sub_one_eq_mod, Nat.mod_eq_of_lt hb,
        Nat.mod_eq_of_lt hb]
    simp only [toSigned]
    rw [if_neg hs]
    have hb' : b ≤ 2 ^ w := le_of_lt hb
    have hA : ((a : Int) - 2 ^ w) * b / (2 : Int) ^ w =
        ((a * b / 2 ^ w : Nat) : Int) - b := by
      have h1 : ((a : Int) - 2 ^ w) * b = ((a * b : Nat) : Int) + (-(b : Int)) * 2 ^ w := by
        push_cast
        ring
      rw [h1, Int.add_mul_ediv_right _ _ (ne_of_gt (by positivity))]
      have h2 : ((a * b : Nat) : Int) / (2 : Int) ^ w = ((a * b / 2 ^ w : Nat) : Int) := by
        rw [← cast_two_pow w]
        exact (Int.ofNat_div _ _).symm
      rw [h2]
      ring
    rw [hA]
    push_cast [Nat.cast_sub hb']
    have h3 : ∀ D : Int, D + ((2 : Int) ^ w - (b : Int)) = (D - b) + 2 ^ w * 1 :=
      fun D => by ring
    rw [h3, Int.add_mul_emod_self_left]

lemma gen_exception_illegal_jmp (c : TrCtx) :
    (gen_exception_illegal c).is_jmp = .noReturn := by
  simp [gen_exception_illegal, generate_exception, emit]

lemma decode_opc_pc (dec16 dec32 : TrCtx → TrCtx × Bool)
    (h16 : PreservesPc dec16) (h32 : PreservesPc dec32) (ctx : TrCtx) :
    (decode_opc dec16 dec32 ctx).pc_first = ctx.pc_first ∧
    (decode_opc dec16 dec32 ctx).pc_next = ctx.pc_next ∧
    ((decode_opc dec16 dec32 ctx).is_jmp = .next →
      (decode_opc dec16 dec32 ctx).pc_succ_insn = ctx.pc_next + 2 ∨
      (decode_opc dec16 dec32 ctx).pc_succ_insn = ctx.pc_next + 4) := by
  simp only [decode_opc]
  split
  · split
    · exact ⟨(gen_exception_illegal_pc ctx).1, (gen_exception_illegal_pc ctx).2.1,
        fun h => absurd (h.symm.trans (gen_exception_illegal_jmp ctx)) (by simp)⟩
    · obtain ⟨hf, hn, hsu⟩ := h16 { ctx with pc_succ_insn := ctx.pc_next + 2 }
      split
      · exact ⟨by rw [hf], by rw [hn], fun _ => Or.inl (by rw [hsu])⟩
      · refine ⟨?_, ?_, fun _ => Or.inl ?_⟩
        · rw [(gen_exception_illegal_pc _).1, hf]
        · rw [(gen_exception_illegal_pc _).2.1, hn]
        · rw [(gen_exception_illegal_pc _).2.2, hsu]
  · obtain ⟨hf, hn, hsu⟩ := h32 { ctx with pc_succ_insn := ctx.pc_next + 4 }
    split
    · exact ⟨by rw [hf], by rw [hn], fun _ => Or.inr (by rw [hsu])⟩
    · refine ⟨?_, ?_, fun _ => Or.inr ?_⟩
      · rw [(gen_exception_illegal_pc _).1, hf]
      · rw [(gen_exception_illegal_pc _).2.1, hn]
      · rw [(gen_exception_illegal_pc _).2.2, hsu]

lemma translate_insn_spec (fetch : Nat → Nat) (dec16 dec32 : TrCtx → TrCtx × Bool)
    (h16 : PreservesPc dec16) (h32 : PreservesPc dec32) (ctx : TrCtx) :
    (riscv_tr_translate_insn fetch dec16 dec32 ctx).pc_first = ctx.pc_first ∧
    ((riscv_tr_translate_insn fetch dec16 dec32 ctx).is_jmp = .next →
      ((riscv_tr_translate_insn fetch dec16 dec32 ctx).pc_next = ctx.pc_next + 2 ∨
       (riscv_tr_translate_insn fetch dec16 dec32 ctx).pc_next = ctx.pc_next + 4) ∧
      (riscv_tr_translate_insn fetch dec16 dec32 ctx).pc_next -
        ctx.pc_first / TARGET_PAGE_SIZE * TARGET_PAGE_SIZE < TARGET_PAGE_SIZE) := by
  obtain ⟨hf0, hn0, hsu0⟩ :=
    decode_opc_pc dec16 dec32 h16 h32 { ctx with opcode := fetch ctx.pc_next }
  have hf : (decode_opc dec16 dec32 { ctx with opcode := fetch ctx.pc_next }).pc_first =
      ctx.pc_first := hf0
  have hsu : (decode_opc dec16 dec32 { ctx with opcode := fetch ctx.pc_next }).is_jmp = .next →
      (decode_opc dec16 dec32 { ctx with opcode := fetch ctx.pc_next }).pc_succ_insn =
        ctx.pc_next + 2 ∨
      (decode_opc dec16 dec32 { ctx with opcode := fetch ctx.pc_next }).pc_succ_insn =
        ctx.pc_next + 4 := hsu0
  simp only [riscv_tr_translate_insn]
  split
  · split
    · exact ⟨hf, fun h => absurd (show JmpKind.tooMany = JmpKind.next from h) (by decide)⟩
    · rename_i hj hno
      have hno' : ¬(TARGET_PAGE_SIZE ≤
          (decode_opc dec16 dec32 { ctx with opcode := fetch ctx.pc_next }).pc_succ_insn -
            (decode_opc dec16 dec32 { ctx with opcode := fetch ctx.pc_next }).pc_first /
              TARGET_PAGE_SIZE * TARGET_PAGE_SIZE) := hno
      rw [hf] at hno'
      refine ⟨hf, fun _ => ⟨hsu hj, ?_⟩⟩
      show (decode_opc dec16 dec32 { ctx with opcode := fetch ctx.pc_next }).pc_succ_insn -
          ctx.pc_first / TARGET_PAGE_SIZE * TARGET_PAGE_SIZE < TARGET_PAGE_SIZE
      omega
  · rename_i hj
    exact ⟨hf, fun h => absurd h hj⟩

lemma translatorLoop_stop (fetch : Nat → Nat) (dec16 dec32 : TrCtx → TrCtx × Bool)
    (n : Nat) (ctx : TrCtx) (h : ctx.is_jmp ≠ .next) :
    translatorLoop fetch dec16 dec32 n ctx = (ctx, []) := by
  cases n with
  | zero => rfl
  | succ m => simp [translatorLoop, h]

lemma translatorLoop_in_page (fetch : Nat → Nat) (dec16 dec32 : TrCtx → TrCtx × Bool)
    (h16 : PreservesPc dec16) (h32 : PreservesPc dec32) :
    ∀ (fuel : Nat) (ctx : TrCtx),
      (ctx.is_jmp = .next →
        ctx.pc_first / TARGET_PAGE_SIZE * TARGET_PAGE_SIZE ≤ ctx.pc_next ∧
        ctx.pc_next - ctx.pc_first / TARGET_PAGE_SIZE * TARGET_PAGE_SIZE <
          TARGET_PAGE_SIZE) →
      ∀ x ∈ (translatorLoop fetch dec16 dec32 fuel ctx).2,
        ctx.pc_first / TARGET_PAGE_SIZE * TARGET_PAGE_SIZE ≤ x ∧
        x - ctx.pc_first / TARGET_PAGE_SIZE * TARGET_PAGE_SIZE < TARGET_PAGE_SIZE := by
  intro fuel
  induction fuel with
  | zero =>
    intro ctx hinv x hx
    simp [translatorLoop] at hx
  | succ n ih =>
    intro ctx hinv x hx
    simp only [translatorLoop] at hx
    by_cases hj : ctx.is_jmp = .next
    · rw [if_pos hj] at hx
      obtain ⟨hf, hstep⟩ := translate_insn_spec fetch dec16 dec32 h16 h32 ctx
      rcases List.mem_cons.mp hx with hx0 | hx1
      · subst hx0
        exact hinv hj
      · have hnext := ih (riscv_tr_translate_insn fetch dec16 dec32 ctx) ?_ x hx1
        · rwa [hf] at hnext
        · intro hj1
          obtain ⟨hor, hlt⟩ := hstep hj1
          have hbase := hinv hj
          rw [hf]
          refine ⟨?_, hlt⟩
          rcases hor with h | h <;> omega
    · rw [if_neg hj] at hx
      simp at hx

lemma translate_insn_std (fetch : Nat → Nat) (dec16 dec32 : TrCtx → TrCtx × Bool)
    (h32 : PreservesPc dec32)
    (hQ : ∀ c, (dec32 c).2 = true ∧ (dec32 c).1.is_jmp = c.is_jmp) (ctx : TrCtx)
    (hstd : fetch ctx.pc_next % 4 = 3) (hj : ctx.is_jmp = .next) :
    (riscv_tr_translate_insn fetch dec16 dec32 ctx).pc_first = ctx.pc_first ∧
    (riscv_tr_translate_insn fetch dec16 dec32 ctx).pc_next = ctx.pc_next + 4 ∧
    (riscv_tr_translate_insn fetch dec16 dec32 ctx).is_jmp =
      (if TARGET_PAGE_SIZE ≤
          ctx.pc_next + 4 - ctx.pc_first / TARGET_PAGE_SIZE * TARGET_PAGE_SIZE
       then JmpKind.tooMany else JmpKind.next) := by
  have h32f : ∀ c, (dec32 c).1.pc_first = c.pc_first := fun c => (h32 c).1
  have h32n : ∀ c, (dec32 c).1.pc_next = c.pc_next := fun c => (h32 c).2.1
  have h32s : ∀ c, (dec32 c).1.pc_succ_insn = c.pc_succ_insn := fun c => (h32 c).2.2
  have hq1 : ∀ c, (dec32 c).2 = true := fun c => (hQ c).1
  have hq2 : ∀ c, (dec32 c).1.is_jmp = c.is_jmp := fun c => (hQ c).2
  simp only [riscv_tr_translate_insn, decode_opc, hstd, ne_eq, not_true_eq_false,
             ite_false, if_false, hq1, ite_true, if_true, h32f, h32n, h32s, hq2, hj]
  split <;> simp

/-- C7: the translator loop (driven while the exit reason is "continue")
keeps every translated instruction's start address within the memory
page of the block's first instruction; an instruction whose decode
leaves the exit reason "continue" but whose successor address leaves
that page flips the exit reason to too-many-instructions; and a block
starting in the last 4-byte slot of a page, whose (standard) first
instruction decodes successfully without redirecting control, contains
exactly that one instruction and stops at the page boundary with the
too-many-instructions exit reason. -/
theorem c7_loop_page_invariant (fetch : Nat → Nat) (dec16 dec32 : TrCtx → TrCtx × Bool)
    (h16 : PreservesPc dec16) (h32 : PreservesPc dec32)
    (pc_first flags : Nat) (rvc ss : Bool) (fuel : Nat) :
    (∀ x ∈ (translatorLoop fetch dec16 dec32 fuel
        (riscv_tr_init_disas_context (translatorLoopInit pc_first flags rvc ss))).2,
        x / TARGET_PAGE_SIZE = pc_first / TARGET_PAGE_SIZE) ∧
    (∀ ctx : TrCtx,
      (decode_opc dec16 dec32 { ctx with opcode := fetch ctx.pc_next }).is_jmp = .next →
      TARGET_PAGE_SIZE ≤
        (decode_opc dec16 dec32 { ctx with opcode := fetch ctx.pc_next }).pc_succ_insn -
          ctx.pc_first / TARGET_PAGE_SIZE * TARGET_PAGE_SIZE →
      (riscv_tr_translate_insn fetch dec16 dec32 ctx).is_jmp = .tooMany) ∧
    (pc_first % TARGET_PAGE_SIZE = TARGET_PAGE_SIZE - 4 →
     fetch pc_first % 4 = 3 →
     (∀ c, (dec32 c).2 = true ∧ (dec32 c).1.is_jmp = c.is_jmp) →
     1 ≤ fuel →
     (translatorLoop fetch dec16 dec32 fuel
        (riscv_tr_init_disas_context (translatorLoopInit pc_first flags rvc ss))).2 =
       [pc_first] ∧
     (translatorLoop fetch dec16 dec32 fuel
        (riscv_tr_init_disas_context (translatorLoopInit pc_first flags rvc ss))).1.is_jmp =
       .tooMany ∧
     (translatorLoop fetch dec16 dec32 fuel
        (riscv_tr_init_disas_context (translatorLoopInit pc_first flags rvc ss))).1.pc_next =
       pc_first + 4) := by
  refine ⟨?_, ?_, ?_⟩
  · intro x hx
    have h := translatorLoop_in_page fetch dec16 dec32 h16 h32 fuel
      (riscv_tr_init_disas_context (translatorLoopInit pc_first flags rvc ss))
      (fun _ => by
        simp only [riscv_tr_init_disas_context, translatorLoopInit, TARGET_PAGE_SIZE]
        omega) x hx
    simp only [riscv_tr_init_disas_context, translatorLoopInit, TARGET_PAGE_SIZE] at h
    simp only [TARGET_PAGE_SIZE]
    omega
  · intro ctx hnext hcross
    obtain ⟨hf, hn, _⟩ :=
      decode_opc_pc dec16 dec32 h16 h32 { ctx with opcode := fetch ctx.pc_next }
    simp only [riscv_tr_translate_insn]
    split
    · split
      · rfl
      · rename_i hno
        rw [hf] at hno
        exact absurd hcross hno
    · rename_i hko
      exact absurd hnext hko
  · intro hmod hstd hQ hfuel
    obtain ⟨n, rfl⟩ : ∃ n, fuel = n + 1 := ⟨fuel - 1, by omega⟩
    obtain ⟨hpf1, hpn1, hj1⟩ := translate_insn_std fetch dec16 dec32 h32 hQ
      (riscv_tr_init_disas_context (translatorLoopInit pc_first flags rvc ss))
      hstd rfl
    have hcond : TARGET_PAGE_SIZE ≤
        (riscv_tr_init_disas_context (translatorLoopInit pc_first flags rvc ss)).pc_next + 4 -
          (riscv_tr_init_disas_context
            (translatorLoopInit pc_first flags rvc ss)).pc_first /
            TARGET_PAGE_SIZE * TARGET_PAGE_SIZE := by
      simp only [riscv_tr_init_disas_context, translatorLoopInit, TARGET_PAGE_SIZE] at hmod ⊢
      omega
    rw [if_pos hcond] at hj1
    have hstop := translatorLoop_stop fetch dec16 dec32 n
      (riscv_tr_translate_insn fetch dec16 dec32
        (riscv_tr_init_disas_context (translatorLoopInit pc_first flags rvc ss)))
      (by rw [hj1]; simp)
    simp only [translatorLoop, if_pos rfl, hstop]
    exact ⟨rfl, hj1, hpn1⟩

/-- Witness for C7: a one-instruction block starting 4 bytes before a
page boundary, with identity decode tables. -/
theorem c7_witness :
    (translatorLoop (fun _ => 0x73) wdec_id wdec_id 2
       (riscv_tr_init_disas_context (translatorLoopInit 4092 0 true false))).2 =
      [4092] ∧
    (translatorLoop (fun _ => 0x73) wdec_id wdec_id 2
       (riscv_tr_init_disas_context (translatorLoopInit 4092 0 true false))).1.is_jmp =
      .tooMany ∧
    (translatorLoop (fun _ => 0x73) wdec_id wdec_id 2
       (riscv_tr_init_disas_context (translatorLoopInit 4092 0 true false))).1.pc_next =
      4092 + 4 := by
  have h := c7_loop_page_invariant (fun _ => 0x73) wdec_id wdec_id
    (fun c => ⟨rfl, rfl, rfl⟩) (fun c => ⟨rfl, rfl, rfl⟩) 4092 0 true false 2
  exact h.2.2 (by decide) (by decide) (fun c => ⟨rfl, rfl⟩) (by decide)

/-- Witness for C4 at width 8 with a negative-signed operand. -/
theorem c4_witness :
    (1 < 8) ∧ 200 < 2 ^ 8 ∧ 7 < 2 ^ 8 ∧
    (gen_mulhsu 8 200 7 : Int) = toSigned 8 200 * ((7 : Nat) : Int) / 2 ^ 8 % 2 ^ 8 :=
  ⟨by decide, by decide, by decide,
   c4_mulhsu_exact 8 200 7 (by decide) (by decide) (by decide)⟩
